import Mathlib

/-!
Verification development for scripts/generate-icon.py.

The script procedurally draws a 1024x1024 RGBA icon with PIL and serializes a
set of resized copies into a legacy ICO container.  This file gives a shallow
embedding of the algorithmic parts:

* exact rational arithmetic stands in for IEEE doubles (at every concrete
  input evaluated in a theorem below, the double computation of the source
  lands in the same integer bin, which is checked by hand);
* the trigonometric functions of the math module are an abstract parameter
  (cosF, sinF), since the source only ever feeds them through pure formulas;
* a PIL canvas is a function from integer pixel coordinates to RGBA values,
  and every drawing call becomes a paint operation (a covered region plus an
  ink color).  ImageDraw on an RGBA image writes the ink value including its
  alpha channel directly (blend=0 in ImageDraw.__init__ when the draw mode
  equals the image mode), so painting replaces the pixel value outright;
  region rasterization is idealized: an ellipse fill covers the integer
  points satisfying the inclusive bounding box inequality, a line of width w
  covers the integer points within distance w/2 of the segment.
* the PNG encoder of PIL is external, so an image carries its compressed
  payload as an opaque byte list.
-/

/-- Python int() applied to an exact rational: truncation toward zero. -/
def pyInt (q : ℚ) : ℤ := if 0 ≤ q then Int.floor q else Int.ceil q

/-- Rounding to the nearest integer, halves toward positive infinity.  Used
only to state the specification's reading of lerp_color, for comparison with
the code's truncating behaviour. -/
def roundNearest (q : ℚ) : ℤ := Int.floor (q + 1/2)

/-- Source lines 21-23: linear interpolation between two color tuples,
channelwise int(a + (b - a) * t) over zip(c1, c2). -/
def lerp_color (c1 c2 : List ℤ) (t : ℚ) : List ℤ :=
  (c1.zip c2).map fun p => pyInt ((p.1 : ℚ) + ((p.2 : ℚ) - (p.1 : ℚ)) * t)

/-- The specification's wording of lerp_color: channel value
c1 + (c2 - c1) * t rounded to the nearest integer. -/
def lerp_color_spec (c1 c2 : List ℤ) (t : ℚ) : List ℤ :=
  (c1.zip c2).map fun p => roundNearest ((p.1 : ℚ) + ((p.2 : ℚ) - (p.1 : ℚ)) * t)

/-- The double-precision value of math.pi, as an exact rational (enough digits
that every degree-to-radian conversion in the script lands in the same
trigonometric table bin as the float computation). -/
def piQ : ℚ := 3141592653589793 / 1000000000000000

/-- math.radians: degrees times pi over 180. -/
def radiansQ (deg : ℚ) : ℚ := deg * piQ / 180

/-- An RGBA pixel value; channels are Python ints. -/
structure RGBA where
  r : ℤ
  g : ℤ
  b : ℤ
  a : ℤ
deriving DecidableEq

/-- One PIL drawing call on the RGBA canvas: the set of covered pixels and
the ink written there (written outright, alpha included: the draw object is
created with blend=0 for an RGBA image). -/
structure Op where
  region : ℤ → ℤ → Bool
  color : RGBA

/-- A 3-tuple fill color on an RGBA image gets alpha 255. -/
def rgbFill (c : List ℤ) : RGBA :=
  ⟨c.getD 0 0, c.getD 1 0, c.getD 2 0, 255⟩

/-- A (*base, alpha) fill: base 3-tuple extended with an explicit alpha. -/
def rgbWithAlpha (c : List ℤ) (al : ℤ) : RGBA :=
  ⟨c.getD 0 0, c.getD 1 0, c.getD 2 0, al⟩

/-- Idealized rasterization of draw.ellipse([x0, y0, x1, y1], fill):
integer points inside the inclusive bounding box satisfying the ellipse
inequality ((x-cx)/a)^2 + ((y-cy)/b)^2 <= 1, written denominator-free. -/
def ellipseRegion (x0 y0 x1 y1 : ℚ) (x y : ℤ) : Bool :=
  decide (x0 ≤ (x : ℚ)) && decide ((x : ℚ) ≤ x1) &&
  decide (y0 ≤ (y : ℚ)) && decide ((y : ℚ) ≤ y1) &&
  decide ((2*(x : ℚ) - (x0 + x1)) * (2*(x : ℚ) - (x0 + x1)) * ((y1 - y0) * (y1 - y0))
        + (2*(y : ℚ) - (y0 + y1)) * (2*(y : ℚ) - (y0 + y1)) * ((x1 - x0) * (x1 - x0))
        ≤ (x1 - x0) * (x1 - x0) * ((y1 - y0) * (y1 - y0)))

/-- Squared distance from point (px, py) to the segment (x1, y1)-(x2, y2). -/
def segDist2 (x1 y1 x2 y2 px py : ℚ) : ℚ :=
  let dx := x2 - x1
  let dy := y2 - y1
  let len2 := dx * dx + dy * dy
  if len2 = 0 then (px - x1) * (px - x1) + (py - y1) * (py - y1)
  else
    let t := ((px - x1) * dx + (py - y1) * dy) / len2
    let tc := max 0 (min 1 t)
    let qx := x1 + tc * dx
    let qy := y1 + tc * dy
    (px - qx) * (px - qx) + (py - qy) * (py - qy)

/-- Idealized rasterization of draw.line with stroke width w: integer points
within distance w/2 of the segment. -/
def segRegion (x1 y1 x2 y2 w : ℚ) (x y : ℤ) : Bool :=
  decide (segDist2 x1 y1 x2 y2 (x : ℚ) (y : ℚ) ≤ (w / 2) * (w / 2))

/-- Source lines 33-41 of draw_thick_arc: the rotated-ellipse point for a
given rotation and (radian) angle.  The source hoists cos(rotation) and
sin(rotation) out of the sampling loop; the value is identical. -/
def arcPointF (cosF sinF : ℚ → ℚ) (cx cy rx ry rot angle : ℚ) : ℚ × ℚ :=
  let cosR := cosF rot
  let sinR := sinF rot
  let ex := rx * cosF angle
  let ey := ry * sinF angle
  (cx + ex * cosR - ey * sinR, cy + ex * sinR + ey * cosR)

/-- Source lines 32-42: the steps+1 sampled arc points, each with its
fraction t = i / steps of the angular span. -/
def arcPoints (cosF sinF : ℚ → ℚ) (cx cy rx ry aStart aEnd rot : ℚ)
    (steps : ℕ) : List (ℚ × ℚ × ℚ) :=
  (List.range (steps + 1)).map fun i : ℕ =>
    let t : ℚ := (i : ℚ) / (steps : ℚ)
    let angle : ℚ := radiansQ (aStart + (aEnd - aStart) * t)
    let p := arcPointF cosF sinF cx cy rx ry rot angle
    (p.1, p.2, t)

/-- Source lines 26-49: draw a rotated elliptical gradient arc.  Consecutive
sampled points become width-w line segments, each filled with the color
interpolated at the midpoint fraction of its two endpoints. -/
def draw_thick_arc (cosF sinF : ℚ → ℚ) (cx cy rx ry aStart aEnd rot w : ℚ)
    (cs ce : List ℤ) (steps : ℕ) : List Op :=
  let points := arcPoints cosF sinF cx cy rx ry aStart aEnd rot steps
  (points.zip points.tail).map fun pq =>
    ⟨fun x y => segRegion pq.1.1 pq.1.2.1 pq.2.1 pq.2.2.1 w x y,
     rgbFill (lerp_color cs ce ((pq.1.2.2 + pq.2.2.2) / 2))⟩

/-- Source lines 52-56: one orbital ring; the steps argument keeps its
default of 200. -/
def draw_orbital (cosF sinF : ℚ → ℚ) (cx cy rx ry rot : ℚ) (cs ce : List ℤ)
    (w : ℚ) (arcStart arcEnd : ℚ) : List Op :=
  draw_thick_arc cosF sinF cx cy rx ry arcStart arcEnd rot w cs ce 200

/-- Master icon size (source line 19: SIZE = 1024). -/
def SIZE : ℕ := 1024

/-- Source line 110: BLUE = (60, 120, 255). -/
def BLUE : List ℤ := [60, 120, 255]

/-- Source line 111: PURPLE = (160, 60, 220). -/
def PURPLE : List ℤ := [160, 60, 220]

/-- Source line 112: PINK = (230, 60, 160). -/
def PINK : List ℤ := [230, 60, 160]

/-- Source line 113: ORANGE = (255, 160, 30). -/
def ORANGE : List ℤ := [255, 160, 30]

/-- Source line 114: RED_ORANGE = (240, 80, 40). -/
def RED_ORANGE : List ℤ := [240, 80, 40]

/-- Source lines 117-122: the three orbitals as
(rotation_degrees, color_start, color_end). -/
def orbitals : List (ℚ × List ℤ × List ℤ) :=
  [(-30, BLUE, PURPLE), (30, PURPLE, PINK), (90, ORANGE, RED_ORANGE)]

/-- Source lines 101-107: the radial background gradient, 512 concentric
opaque disk fills from radius SIZE//2 = 512 down to 1, centered at
(512, 512); val = int(8 + 12 * (r / 512)), color (val, val, int(val * 1.2)),
alpha 255. -/
def backgroundOps : List Op :=
  (List.range (SIZE / 2)).map fun i =>
    let r : ℕ := SIZE / 2 - i
    let t : ℚ := (r : ℚ) / ((SIZE / 2 : ℕ) : ℚ)
    let val : ℤ := pyInt (8 + 12 * t)
    ⟨fun x y => ellipseRegion (512 - (r : ℚ)) (512 - (r : ℚ))
                              (512 + (r : ℚ)) (512 + (r : ℚ)) x y,
     ⟨val, val, pyInt ((val : ℚ) * (6/5)), 255⟩⟩

/-- Source lines 125-128: the back halves (180 to 360 degrees) of the three
orbitals, stroke width 16, at ellipse radii rx = 340, ry = 130. -/
def backOrbitalOps (cosF sinF : ℚ → ℚ) : List Op :=
  orbitals.flatMap fun o =>
    draw_orbital cosF sinF 512 512 340 130 (radiansQ o.1) o.2.1 o.2.2 16 180 360

/-- Source lines 155-157: the front halves (0 to 180 degrees) of the three
orbitals, drawn after the glyph text. -/
def frontOrbitalOps (cosF sinF : ℚ → ℚ) : List Op :=
  orbitals.flatMap fun o =>
    draw_orbital cosF sinF 512 512 340 130 (radiansQ o.1) o.2.1 o.2.2 16 0 180

/-- The glyph-rendering resource delivered by the font-fallback chain: the
text bounding-box extent reported by draw.textbbox for the string, and the
set of pixels the renderer inks, in coordinates relative to the text anchor.
Environment-dependent (which font loads differs per machine), hence a
parameter of the composition. -/
structure Glyph where
  tw : ℤ
  th : ℤ
  ink : ℤ → ℤ → Bool

/-- Source lines 134-144: the font fallback chain.  Each truetype attempt
either yields a font or raises OSError/IOError (modelled as Option); a
failure falls through to the next option, and the final fallback
ImageFont.load_default() always succeeds. -/
def load_font_chain {F : Type} (consola cour winConsola : Option F)
    (loadDefault : F) : F :=
  match consola with
  | some f => f
  | none =>
    match cour with
    | some f => f
    | none =>
      match winConsola with
      | some f => f
      | none => loadDefault

/-- Source lines 146-153: the centered glyph string, drawn twice: a shadow
copy offset by (+3, +3) with ink (0, 0, 0, 180), then the foreground copy
with ink (230, 230, 240, 255).  tx = 512 - tw // 2, ty = 512 - th // 2 - 20
(the reported extents are nonnegative, so Int division matches Python //). -/
def textOps (g : Glyph) : List Op :=
  let tx : ℤ := 512 - g.tw / 2
  let ty : ℤ := 512 - g.th / 2 - 20
  [⟨fun x y => g.ink (x - (tx + 3)) (y - (ty + 3)), ⟨0, 0, 0, 180⟩⟩,
   ⟨fun x y => g.ink (x - tx) (y - ty), ⟨230, 230, 240, 255⟩⟩]

/-- Source lines 161-166: the two electron markers as
(orbital_index, angle_on_ellipse_degrees, radius, base_color, highlight). -/
def electrons : List (ℕ × ℚ × ℕ × List ℤ × List ℤ) :=
  [(0, 220, 22, [80, 130, 255], [180, 200, 255]),
   (2, 40, 22, [255, 160, 30], [255, 220, 140])]

/-- Source lines 168-174: the electron center position before int()
truncation: the orbital's rotation is looked up, both angles converted to
radians, and the rotated-ellipse formula applied with rx = 340, ry = 130
around center (512, 512). -/
def electronPos (cosF sinF : ℚ → ℚ) (orbIdx : ℕ) (angleDeg : ℚ) : ℚ × ℚ :=
  let rotDeg : ℚ := (orbitals.getD orbIdx (0, [], [])).1
  let rot := radiansQ rotDeg
  let angle := radiansQ angleDeg
  let ex := 340 * cosF angle
  let ey := 130 * sinF angle
  (512 + ex * cosF rot - ey * sinF rot, 512 + ex * sinF rot + ey * cosF rot)

/-- Source line 175: the int()-truncated electron center passed to
draw_sphere. -/
def electronCenter (cosF sinF : ℚ → ℚ) (orbIdx : ℕ) (angleDeg : ℚ) : ℤ × ℤ :=
  (pyInt (electronPos cosF sinF orbIdx angleDeg).1,
   pyInt (electronPos cosF sinF orbIdx angleDeg).2)

/-- Source lines 59-78: the glowing sphere.  Twelve outer-glow disk fills
from radius+12 down to radius+1 with alpha int(60 * (1 - (r - radius)/12)),
then the body disks from radius down to 1 colored
lerp_color(base, highlight, t * 0.6) with t = 1 - r/radius, then the
specular highlight disks around (cx - 0.3 radius, cy - 0.3 radius) of radius
int(0.35 radius) down to 1 in white with fading alpha. -/
def draw_sphere (cx cy : ℤ) (radius : ℕ) (base hi : List ℤ) : List Op :=
  let glow : List Op := (List.range 12).map fun i =>
    let r : ℕ := radius + 12 - i
    let al : ℤ := pyInt (60 * (1 - ((r : ℚ) - (radius : ℚ)) / 12))
    ⟨fun x y => ellipseRegion ((cx : ℚ) - (r : ℚ)) ((cy : ℚ) - (r : ℚ))
                              ((cx : ℚ) + (r : ℚ)) ((cy : ℚ) + (r : ℚ)) x y,
     rgbWithAlpha base al⟩
  let body : List Op := (List.range radius).map fun i =>
    let r : ℕ := radius - i
    let t : ℚ := 1 - (r : ℚ) / (radius : ℚ)
    ⟨fun x y => ellipseRegion ((cx : ℚ) - (r : ℚ)) ((cy : ℚ) - (r : ℚ))
                              ((cx : ℚ) + (r : ℚ)) ((cy : ℚ) + (r : ℚ)) x y,
     rgbFill (lerp_color base hi (t * (6/10)))⟩
  let hx : ℚ := (cx : ℚ) - (radius : ℚ) * (3/10)
  let hy : ℚ := (cy : ℚ) - (radius : ℚ) * (3/10)
  let hr : ℚ := (radius : ℚ) * (35/100)
  let hlight : List Op := (List.range (pyInt hr).toNat).map fun i =>
    let r2 : ℕ := (pyInt hr).toNat - i
    let al : ℤ := pyInt (200 * (1 - (r2 : ℚ) / hr))
    ⟨fun x y => ellipseRegion (hx - (r2 : ℚ)) (hy - (r2 : ℚ))
                              (hx + (r2 : ℚ)) (hy + (r2 : ℚ)) x y,
     ⟨255, 255, 255, al⟩⟩
  glow ++ body ++ hlight

/-- Source lines 176-182: the two electron spheres, drawn in list order at
their truncated centers. -/
def electronOps (cosF sinF : ℚ → ℚ) : List Op :=
  electrons.flatMap fun e =>
    draw_sphere (electronCenter cosF sinF e.1 e.2.1).1
                (electronCenter cosF sinF e.1 e.2.1).2
                e.2.2.1 e.2.2.2.1 e.2.2.2.2

/-- Source lines 187-192: the twelve fixed sparkle positions (x, y, size). -/
def sparkle_positions : List (ℤ × ℤ × ℤ) :=
  [(180, 200, 6), (820, 180, 5), (850, 750, 7),
   (200, 700, 4), (750, 300, 5), (300, 150, 4),
   (700, 800, 6), (150, 450, 3), (880, 500, 4),
   (400, 850, 3), (600, 130, 4), (900, 350, 3)]

/-- Sparkle color generation: one random.randint(180, 255) call per sparkle,
threading the generator state; each color is (255, 255, b).  The generator
is abstract: randint maps a state to the drawn value and the next state. -/
def sparkleColorsGo {σ : Type} (randint : σ → ℕ × σ) :
    List (ℤ × ℤ × ℤ) → σ → List (ℕ × ℕ × ℕ)
  | [], _ => []
  | _ :: rest, s =>
    (255, 255, (randint s).1) :: sparkleColorsGo randint rest (randint s).2

/-- Source lines 184-195: random.seed(42) reseeds the generator, then the
twelve sparkle colors are drawn in position order. -/
def sparkle_colors {σ : Type} (randint : σ → ℕ × σ) (seedF : ℕ → σ) :
    List (ℕ × ℕ × ℕ) :=
  sparkleColorsGo randint sparkle_positions (seedF 42)

/-- Source lines 81-91: a sparkle mark: vertical and horizontal strokes of
half-length s and two diagonal strokes of half-length 0.6 s, all width 1. -/
def draw_sparkle (x y s : ℤ) (c : RGBA) : List Op :=
  let ds : ℚ := (s : ℚ) * (6/10)
  [⟨fun a b => segRegion (x : ℚ) ((y : ℚ) - (s : ℚ)) (x : ℚ) ((y : ℚ) + (s : ℚ)) 1 a b, c⟩,
   ⟨fun a b => segRegion ((x : ℚ) - (s : ℚ)) (y : ℚ) ((x : ℚ) + (s : ℚ)) (y : ℚ) 1 a b, c⟩,
   ⟨fun a b => segRegion ((x : ℚ) - ds) ((y : ℚ) - ds) ((x : ℚ) + ds) ((y : ℚ) + ds) 1 a b, c⟩,
   ⟨fun a b => segRegion ((x : ℚ) + ds) ((y : ℚ) - ds) ((x : ℚ) - ds) ((y : ℚ) + ds) 1 a b, c⟩]

/-- Source lines 193-195: each sparkle drawn with its generated color (the
drawing consumes no generator state, so pairing positions with the color
sequence reproduces the interleaved loop). -/
def sparkleOps {σ : Type} (randint : σ → ℕ × σ) (s0 : σ) : List Op :=
  (sparkle_positions.zip (sparkleColorsGo randint sparkle_positions s0)).flatMap
    fun pc => draw_sparkle pc.1.1 pc.1.2.1 pc.1.2.2 ⟨255, 255, (pc.2.2.2 : ℤ), 255⟩

/-- All drawing operations of create_nebula_icon in program order:
background gradient, orbital back halves, glyph text (shadow then
foreground), orbital front halves, electron spheres, sparkles. -/
def iconOps {σ : Type} (cosF sinF : ℚ → ℚ) (g : Glyph)
    (randint : σ → ℕ × σ) (s0 : σ) : List Op :=
  backgroundOps ++ backOrbitalOps cosF sinF ++ textOps g ++
    frontOrbitalOps cosF sinF ++ electronOps cosF sinF ++ sparkleOps randint s0

/-- A fixed-size RGBA raster: dimensions plus the pixel value function. -/
structure Canvas where
  width : ℕ
  height : ℕ
  pix : ℤ → ℤ → RGBA

/-- Sequential application of paint operations to one pixel, starting from
the base value: each covering op replaces the pixel with its ink. -/
def applyOps (ops : List Op) (x y : ℤ) (v0 : RGBA) : RGBA :=
  ops.foldl (fun v op => if op.region x y then op.color else v) v0

/-- The last ink written at a pixel by a list of ops, if any op covers it
(ops later in the list are applied later, hence take precedence). -/
def writeAt : List Op → ℤ → ℤ → Option RGBA
  | [], _, _ => none
  | op :: t, x, y =>
    match writeAt t x y with
    | some c => some c
    | none => if op.region x y then some op.color else none

/-- The pixel function of the composed canvas: Image.new("RGBA",
(SIZE, SIZE), (0, 0, 0, 255)) starts every pixel fully opaque black, and the
drawing calls then write their ink in program order. -/
def nebulaPix {σ : Type} (cosF sinF : ℚ → ℚ) (g : Glyph)
    (randint : σ → ℕ × σ) (s0 : σ) (x y : ℤ) : RGBA :=
  applyOps (iconOps cosF sinF g randint s0) x y ⟨0, 0, 0, 255⟩

/-- Source lines 94-197: the composed master canvas. -/
def create_nebula_icon {σ : Type} (cosF sinF : ℚ → ℚ) (g : Glyph)
    (randint : σ → ℕ × σ) (s0 : σ) : Canvas :=
  ⟨SIZE, SIZE, nebulaPix cosF sinF g randint s0⟩

/-- A PIL raster image as create_ico consumes it: pixel dimensions plus the
PNG-compressed payload bytes that img.save(buf, format="PNG") produces (the
encoder is a library primitive, so the payload is carried opaquely). -/
structure PILImage where
  width : ℕ
  height : ℕ
  png : List ℕ

/-- struct.pack of one unsigned byte: fails (struct.error) out of range. -/
def packU8 (n : ℕ) : Option (List ℕ) :=
  if n < 256 then some [n] else none

/-- struct.pack "<H": one little-endian unsigned 16-bit field. -/
def packU16 (n : ℕ) : Option (List ℕ) :=
  if n < 65536 then some [n % 256, n / 256] else none

/-- struct.pack "<I": one little-endian unsigned 32-bit field. -/
def packU32 (n : ℕ) : Option (List ℕ) :=
  if n < 4294967296 then
    some [n % 256, n / 256 % 256, n / 65536 % 256, n / 16777216] else none

/-- Source line 225: one 16-byte directory entry,
struct.pack("<BBBBHHII", w, h, 0, 0, 1, 32, data_size, offset) where w (h)
is the image width (height) if below 256 and 0 otherwise. -/
def icoEntry (img : PILImage) (dataSize offset : ℕ) : Option (List ℕ) := do
  let w : ℕ := if img.width < 256 then img.width else 0
  let h : ℕ := if img.height < 256 then img.height else 0
  let bw ← packU8 w
  let bh ← packU8 h
  let bcc ← packU8 0
  let bres ← packU8 0
  let bplanes ← packU16 1
  let bbits ← packU16 32
  let bsize ← packU32 dataSize
  let boff ← packU32 offset
  pure (bw ++ bh ++ bcc ++ bres ++ bplanes ++ bbits ++ bsize ++ boff)

/-- Source lines 216-228: the directory entries in image order, the running
offset starting at 6 + 16 N and advancing by each payload's byte length. -/
def icoDirectory : List PILImage → ℕ → Option (List ℕ)
  | [], _ => some []
  | img :: rest, offset => do
    let e ← icoEntry img img.png.length offset
    let d ← icoDirectory rest (offset + img.png.length)
    pure (e ++ d)

/-- Source lines 200-233: the full byte stream create_ico writes: the 6-byte
header struct.pack("<HHH", 0, 1, N), the N directory entries, then the N
PNG payloads concatenated in order.  Any struct.pack range violation raises,
modelled as none. -/
def create_ico (images : List PILImage) : Option (List ℕ) := do
  let h1 ← packU16 0
  let h2 ← packU16 1
  let h3 ← packU16 images.length
  let dir ← icoDirectory images (6 + images.length * 16)
  pure (h1 ++ h2 ++ h3 ++ dir ++ (images.map fun img => img.png).flatten)

/-- Little-endian u32 byte quadruple (total function; agrees with packU32 on
in-range values). -/
def u32le (n : ℕ) : List ℕ :=
  [n % 256, n / 256 % 256, n / 65536 % 256, n / 16777216]

/-- The 16 entry bytes, as a total function of the image and its offset. -/
def icoEntryBytes (img : PILImage) (offset : ℕ) : List ℕ :=
  [if img.width < 256 then img.width else 0,
   if img.height < 256 then img.height else 0,
   0, 0, 1, 0, 32, 0] ++ u32le img.png.length ++ u32le offset

/-- The directory bytes, as a total function. -/
def icoDirBytes : List PILImage → ℕ → List ℕ
  | [], _ => []
  | img :: rest, offset =>
    icoEntryBytes img offset ++ icoDirBytes rest (offset + img.png.length)

/-- The full container bytes, as a total function (create_ico returns
exactly these when no struct.pack range is violated). -/
def icoBytes (images : List PILImage) : List ℕ :=
  [0, 0, 1, 0, images.length % 256, images.length / 256] ++
    icoDirBytes images (6 + images.length * 16) ++
    (images.map fun img => img.png).flatten

/-- The payload byte lengths in image order. -/
def pngSizes (images : List PILImage) : List ℕ :=
  images.map fun img => img.png.length

/-- Total payload byte count. -/
def icoTotal (images : List PILImage) : ℕ := (pngSizes images).sum

/-- The byte offset of payload i from the start of the container: directly
after the header and directory, plus all earlier payloads. -/
def icoOffset (images : List PILImage) (i : ℕ) : ℕ :=
  6 + 16 * images.length + ((pngSizes images).take i).sum

/-- A rational step function agreeing (to 6 places, enough for every integer
bin decided below) with the double cosine at the four angles the electron
placement evaluates: radians(-30) below 0, radians(40) in [0, 1),
radians(90) in [1, 2), radians(220) at 2 and above.  Used to instantiate
the abstract cosF parameter in witnesses. -/
def cosTable (x : ℚ) : ℚ :=
  if x < 0 then 866025/1000000 else
  if x < 1 then 766044/1000000 else
  if x < 2 then 0 else -766044/1000000

/-- Rational step function matching the double sine at the same four
angles. -/
def sinTable (x : ℚ) : ℚ :=
  if x < 0 then -1/2 else
  if x < 1 then 642788/1000000 else
  if x < 2 then 1 else -642788/1000000

/-- A concrete glyph resource for witnesses: the consolas-like extent the
bounding box reports at size 240; the ink mask is immaterial to the claims
decided at it (every pixel examined is repainted by later operations). -/
def glyph0 : Glyph := ⟨396, 173, fun _ _ => false⟩

/-- A concrete generator instantiation for witnesses: a simple in-range
state machine standing in for the seeded Mersenne Twister. -/
def randint0 : ℕ → ℕ × ℕ := fun s => (180 + s % 76, s + 1)

/-- A concrete seed function for witnesses. -/
def seedF0 : ℕ → ℕ := fun n => n

/-- Concrete image list for the container witnesses: a 16x16 and a 256x256
image with small stand-in payloads. -/
def icoImagesW : List PILImage := [⟨16, 16, [1, 2, 3]⟩, ⟨256, 256, [4, 5]⟩]

/-- Concrete image list for the width/height byte witnesses: a 256x256 and a
128x128 image. -/
def icoImagesWH : List PILImage := [⟨256, 256, [9]⟩, ⟨128, 128, [7, 8]⟩]

/-- Concrete oversized image for the silent-truncation witness. -/
def icoImagesBig : List PILImage := [⟨512, 512, [1, 2, 3, 4]⟩]

/-! ## Generic lemmas about paint-operation folds -/

/-- A pixel's final value is the last covering ink, if any, else the base. -/
theorem applyOps_eq_writeAt (ops : List Op) (x y : ℤ) (v : RGBA) :
    applyOps ops x y v = (writeAt ops x y).getD v := by
  induction ops generalizing v with
  | nil => rfl
  | cons op t ih =>
    simp only [applyOps, List.foldl_cons] at ih ⊢
    rw [ih]
    show (writeAt t x y).getD _ = (writeAt (op :: t) x y).getD v
    simp only [writeAt]
    cases h : writeAt t x y with
    | none => by_cases hc : op.region x y <;> simp [hc]
    | some c => simp

/-- Appending op lists: the later list's write wins when it exists. -/
theorem writeAt_append (l1 l2 : List Op) (x y : ℤ) :
    writeAt (l1 ++ l2) x y = (writeAt l2 x y).elim (writeAt l1 x y) some := by
  induction l1 with
  | nil =>
    show writeAt l2 x y = _
    cases writeAt l2 x y <;> rfl
  | cons op t ih =>
    show writeAt (op :: (t ++ l2)) x y = _
    simp only [writeAt, ih]
    cases writeAt l2 x y <;> cases writeAt t x y <;> simp

/-- If no op of the list covers the pixel, nothing is written. -/
theorem writeAt_none_of_uncovered (ops : List Op) (x y : ℤ)
    (h : ∀ op ∈ ops, op.region x y = false) : writeAt ops x y = none := by
  induction ops with
  | nil => rfl
  | cons op t ih =>
    simp only [writeAt]
    rw [ih fun o ho => h o (List.mem_cons_of_mem op ho)]
    rw [h op (List.mem_cons_self op t)]
    rfl

/-- A later block that does write determines the write of the whole list. -/
theorem writeAt_append_some (l1 l2 : List Op) (x y : ℤ) (c : RGBA)
    (h : writeAt l2 x y = some c) : writeAt (l1 ++ l2) x y = some c := by
  rw [writeAt_append, h]; rfl

/-- Painting with everywhere-opaque inks preserves full opacity. -/
theorem applyOps_alpha_opaque (ops : List Op) (x y : ℤ)
    (h : ∀ op ∈ ops, op.color.a = 255) :
    ∀ v : RGBA, v.a = 255 → (applyOps ops x y v).a = 255 := by
  induction ops with
  | nil => intro v hv; exact hv
  | cons op t ih =>
    intro v hv
    simp only [applyOps, List.foldl_cons] at ih ⊢
    by_cases hc : op.region x y
    · simp only [hc, if_pos]
      exact ih (fun o ho => h o (List.mem_cons_of_mem op ho)) op.color
        (h op (List.mem_cons_self op t))
    · simp only [hc, if_neg, ite_false]
      exact ih (fun o ho => h o (List.mem_cons_of_mem op ho)) v hv

/-! ## Container claims: empty input -/

/-- Claim C10: given an empty list of images, create_ico produces exactly the
6 header bytes 00 00 01 00 00 00 (reserved=0, type=1, count=0), with no
directory entries, no payloads, and no error. -/
theorem create_ico_empty :
    create_ico [] = some [0, 0, 1, 0, 0, 0] ∧
    ([0, 0, 1, 0, 0, 0] : List ℕ).length = 6 :=
  ⟨by decide, rfl⟩

/-! ## Font fallback chain -/

/-- Claim C6: glyph-resource loading failures are non-fatal.  The chain
tries consola.ttf, cour.ttf, C:/Windows/Fonts/consola.ttf in order, each
failure (modelled as none) falling through to the next, and total failure
lands on the always-available built-in default, so a font is always
produced: the chain equals the priority-ordered orElse of the three
attempts, defaulted to the built-in renderer. -/
theorem load_font_chain_total {F : Type} (consola cour winConsola : Option F)
    (d : F) :
    load_font_chain consola cour winConsola d
      = (consola.orElse fun _ => cour.orElse fun _ => winConsola).getD d ∧
    load_font_chain none none none d = d := by
  constructor
  · cases consola <;> cases cour <;> cases winConsola <;> rfl
  · rfl

/-! ## Sparkle color determinism -/

/-- Claim C5: with the generator reseeded with the fixed seed 42, two
independent runs of the sparkle-color step produce identical sequences of
twelve colors, each of the form (255, 255, b) with only the blue channel
drawn from the generator. -/
theorem sparkle_colors_deterministic {σ : Type} (randint : σ → ℕ × σ)
    (seedF : ℕ → σ) :
    sparkle_colors randint seedF = sparkle_colors randint seedF ∧
    (sparkle_colors randint seedF).length = 12 ∧
    ∀ c ∈ sparkle_colors randint seedF, c.1 = 255 ∧ c.2.1 = 255 := by
  refine ⟨rfl, rfl, ?_⟩
  intro c hc
  simp only [sparkle_colors, sparkle_positions, sparkleColorsGo,
    List.mem_cons, List.not_mem_nil, or_false] at hc
  rcases hc with rfl | rfl | rfl | rfl | rfl | rfl | rfl | rfl | rfl | rfl | rfl | rfl <;>
    exact ⟨rfl, rfl⟩

/-- Witness for claim C5 at a concrete generator instantiation. -/
theorem sparkle_colors_deterministic_witness :
    sparkle_colors randint0 seedF0 = sparkle_colors randint0 seedF0 ∧
    (sparkle_colors randint0 seedF0).length = 12 ∧
    ∀ c ∈ sparkle_colors randint0 seedF0, c.1 = 255 ∧ c.2.1 = 255 :=
  sparkle_colors_deterministic randint0 seedF0

/-! ## Electron placement uses the arc parametrization -/

/-- Claim C8: the electron center position computed in create_nebula_icon is
the same function of (angle, rotation) as the rotated-ellipse point used by
draw_thick_arc, at rx = 340, ry = 130 around (512, 512): both equal
(cx + rx cos a cos r - ry sin a sin r, cy + rx cos a sin r + ry sin a cos r),
and the int()-truncated draw center is that same point truncated. -/
theorem electron_matches_arc_parametrization (cosF sinF : ℚ → ℚ)
    (orbIdx : ℕ) (angleDeg : ℚ) :
    electronPos cosF sinF orbIdx angleDeg
      = arcPointF cosF sinF 512 512 340 130
          (radiansQ (orbitals.getD orbIdx (0, [], [])).1) (radiansQ angleDeg) ∧
    (∀ rot angle : ℚ, arcPointF cosF sinF 512 512 340 130 rot angle
      = (512 + 340 * cosF angle * cosF rot - 130 * sinF angle * sinF rot,
         512 + 340 * cosF angle * sinF rot + 130 * sinF angle * cosF rot)) ∧
    electronCenter cosF sinF orbIdx angleDeg
      = (pyInt (arcPointF cosF sinF 512 512 340 130
            (radiansQ (orbitals.getD orbIdx (0, [], [])).1) (radiansQ angleDeg)).1,
         pyInt (arcPointF cosF sinF 512 512 340 130
            (radiansQ (orbitals.getD orbIdx (0, [], [])).1) (radiansQ angleDeg)).2) :=
  ⟨rfl, fun _ _ => rfl, rfl⟩

/-! ## The glow pixel of the blue electron -/

set_option maxRecDepth 100000

set_option maxHeartbeats 2000000

/-- No sparkle stroke reaches pixel (274, 569): every sparkle center is far
from it and strokes extend at most size+1 pixels from their center. -/
theorem sparkle_uncovered {σ : Type} (randint : σ → ℕ × σ) (s0 : σ) :
    ∀ op ∈ sparkleOps randint s0, op.region 274 569 = false := by
  have hbool : (sparkle_positions.all fun p =>
      !segRegion (p.1 : ℚ) ((p.2.1 : ℚ) - (p.2.2 : ℚ)) (p.1 : ℚ)
          ((p.2.1 : ℚ) + (p.2.2 : ℚ)) 1 274 569 &&
      !segRegion ((p.1 : ℚ) - (p.2.2 : ℚ)) (p.2.1 : ℚ) ((p.1 : ℚ) + (p.2.2 : ℚ))
          (p.2.1 : ℚ) 1 274 569 &&
      !segRegion ((p.1 : ℚ) - (p.2.2 : ℚ) * (6/10)) ((p.2.1 : ℚ) - (p.2.2 : ℚ) * (6/10))
          ((p.1 : ℚ) + (p.2.2 : ℚ) * (6/10)) ((p.2.1 : ℚ) + (p.2.2 : ℚ) * (6/10)) 1 274 569 &&
      !segRegion ((p.1 : ℚ) + (p.2.2 : ℚ) * (6/10)) ((p.2.1 : ℚ) - (p.2.2 : ℚ) * (6/10))
          ((p.1 : ℚ) - (p.2.2 : ℚ) * (6/10)) ((p.2.1 : ℚ) + (p.2.2 : ℚ) * (6/10)) 1 274 569)
      = true := by with_unfolding_all rfl
  intro op hop
  obtain ⟨pc, hpc, hop2⟩ := List.mem_flatMap.mp hop
  have hpos := (List.of_mem_zip hpc).1
  have hp := List.all_eq_true.mp hbool pc.1 hpos
  rw [Bool.and_eq_true, Bool.and_eq_true, Bool.and_eq_true] at hp
  obtain ⟨⟨⟨hv, hh⟩, hd1⟩, hd2⟩ := hp
  rw [Bool.not_eq_true'] at hv hh hd1 hd2
  simp only [draw_sparkle, List.mem_cons, List.not_mem_nil, or_false] at hop2
  rcases hop2 with rfl | rfl | rfl | rfl
  · exact hv
  · exact hh
  · exact hd1
  · exact hd2

/-- At pixel (274, 569) the last write of the electron-sphere stage is the
blue electron's outer-glow ring of radius 30, with ink (80, 130, 255, 20):
the center hypotheses pin the two truncated sphere centers to the values
the double computation of the source produces. -/
theorem electron_write_at_glow_pixel (cosF sinF : ℚ → ℚ)
    (h1 : electronCenter cosF sinF 0 220 = (244, 569))
    (h2 : electronCenter cosF sinF 2 40 = (428, 772)) :
    writeAt (electronOps cosF sinF) 274 569 = some ⟨80, 130, 255, 20⟩ := by
  have he : electronOps cosF sinF
      = draw_sphere 244 569 22 [80, 130, 255] [180, 200, 255]
        ++ draw_sphere 428 772 22 [255, 160, 30] [255, 220, 140] := by
    simp only [electronOps, electrons, List.flatMap_cons, List.flatMap_nil,
      List.append_nil, h1, h2]
  rw [he, writeAt_append]
  have horange : writeAt (draw_sphere 428 772 22 [255, 160, 30] [255, 220, 140])
      274 569 = none := by with_unfolding_all rfl
  have hblue : writeAt (draw_sphere 244 569 22 [80, 130, 255] [180, 200, 255])
      274 569 = some ⟨80, 130, 255, 20⟩ := by with_unfolding_all rfl
  rw [horange, hblue]
  rfl

/-- Projection computation for explicit canvases. -/
theorem canvas_pix_mk (w h : ℕ) (f : ℤ → ℤ → RGBA) : (Canvas.mk w h f).pix = f := rfl

/-- create_nebula_icon as an explicit canvas. -/
theorem create_nebula_icon_def {σ : Type} (cosF sinF : ℚ → ℚ) (g : Glyph)
    (randint : σ → ℕ × σ) (s0 : σ) :
    create_nebula_icon cosF sinF g randint s0
      = Canvas.mk SIZE SIZE (nebulaPix cosF sinF g randint s0) := rfl

/-- Unfolding lemma for the canvas pixel function. -/
theorem create_nebula_icon_pix {σ : Type} (cosF sinF : ℚ → ℚ) (g : Glyph)
    (randint : σ → ℕ × σ) (s0 : σ) :
    (create_nebula_icon cosF sinF g randint s0).pix
      = nebulaPix cosF sinF g randint s0 := by
  rw [create_nebula_icon_def, canvas_pix_mk]

/-- Unfolding lemma for nebulaPix. -/
theorem nebulaPix_eq {σ : Type} (cosF sinF : ℚ → ℚ) (g : Glyph)
    (randint : σ → ℕ × σ) (s0 : σ) (x y : ℤ) :
    nebulaPix cosF sinF g randint s0 x y
      = applyOps (iconOps cosF sinF g randint s0) x y ⟨0, 0, 0, 255⟩ := rfl

/-- The final value of pixel (274, 569) of the composed canvas is the blue
glow ink (80, 130, 255, 20): everything painted after it misses the pixel,
and the glow ring overwrites everything before it. -/
theorem nebula_glow_pixel {σ : Type} (cosF sinF : ℚ → ℚ) (g : Glyph)
    (randint : σ → ℕ × σ) (s0 : σ)
    (h1 : electronCenter cosF sinF 0 220 = (244, 569))
    (h2 : electronCenter cosF sinF 2 40 = (428, 772)) :
    (create_nebula_icon cosF sinF g randint s0).pix 274 569
      = ⟨80, 130, 255, 20⟩ := by
  rw [create_nebula_icon_pix, nebulaPix_eq, applyOps_eq_writeAt]
  have hes : writeAt (electronOps cosF sinF ++ sparkleOps randint s0) 274 569
      = some ⟨80, 130, 255, 20⟩ := by
    rw [writeAt_append,
      writeAt_none_of_uncovered _ _ _ (sparkle_uncovered randint s0),
      electron_write_at_glow_pixel cosF sinF h1 h2]
    rfl
  have hall : writeAt (iconOps cosF sinF g randint s0) 274 569
      = some ⟨80, 130, 255, 20⟩ := by
    simp only [iconOps, List.append_assoc]
    exact writeAt_append_some _ _ _ _ _ (writeAt_append_some _ _ _ _ _
      (writeAt_append_some _ _ _ _ _ (writeAt_append_some _ _ _ _ _ hes)))
  rw [hall]
  rfl

/-- Every background-gradient fill is fully opaque. -/
theorem background_opaque_ops : ∀ op ∈ backgroundOps, op.color.a = 255 := by
  intro op hop
  simp only [backgroundOps] at hop
  obtain ⟨i, _, rfl⟩ := List.mem_map.mp hop
  rfl

/-- After the background stage every pixel of the canvas is fully opaque. -/
theorem background_opaque (x y : ℤ) :
    (applyOps backgroundOps x y ⟨0, 0, 0, 255⟩).a = 255 :=
  applyOps_alpha_opaque backgroundOps x y background_opaque_ops ⟨0, 0, 0, 255⟩ rfl

/-- Claim C1 (amended): the image returned by create_nebula_icon is exactly
1024x1024 and the background fill does cover the entire canvas fully opaque;
but not every pixel of the final image has alpha 255: ImageDraw on an RGBA
canvas writes the ink alpha outright, so the blue electron's outer-glow ring
leaves pixel (274, 569) with alpha 20.  The hypotheses pin the truncated
electron centers to the values the source's double arithmetic produces. -/
theorem nebula_icon_size_and_glow_alpha {σ : Type} (cosF sinF : ℚ → ℚ)
    (g : Glyph) (randint : σ → ℕ × σ) (s0 : σ)
    (h1 : electronCenter cosF sinF 0 220 = (244, 569))
    (h2 : electronCenter cosF sinF 2 40 = (428, 772)) :
    (create_nebula_icon cosF sinF g randint s0).width = 1024 ∧
    (create_nebula_icon cosF sinF g randint s0).height = 1024 ∧
    (∀ x y : ℤ, (applyOps backgroundOps x y ⟨0, 0, 0, 255⟩).a = 255) ∧
    ((create_nebula_icon cosF sinF g randint s0).pix 274 569).a = 20 :=
  ⟨rfl, rfl, fun x y => background_opaque x y,
   by rw [nebula_glow_pixel cosF sinF g randint s0 h1 h2]⟩

/-- Witness for the amended claim C1, at the concrete trig tables, glyph and
generator instantiations. -/
theorem nebula_icon_size_and_glow_alpha_witness :
    (create_nebula_icon cosTable sinTable glyph0 randint0 (seedF0 42)).width = 1024 ∧
    (create_nebula_icon cosTable sinTable glyph0 randint0 (seedF0 42)).height = 1024 ∧
    (∀ x y : ℤ, (applyOps backgroundOps x y ⟨0, 0, 0, 255⟩).a = 255) ∧
    ((create_nebula_icon cosTable sinTable glyph0 randint0 (seedF0 42)).pix 274 569).a = 20 :=
  nebula_icon_size_and_glow_alpha cosTable sinTable glyph0 randint0 (seedF0 42)
    (by with_unfolding_all rfl) (by with_unfolding_all rfl)

/-- Claim C1 counterexample: it is not the case that every pixel of the
returned image is fully opaque — pixel (274, 569), inside the blue
electron's outer-glow annulus, ends with alpha 20, not 255. -/
theorem nebula_icon_not_all_opaque :
    ¬ (∀ x y : ℤ,
        ((create_nebula_icon cosTable sinTable glyph0 randint0 (seedF0 42)).pix x y).a
          = 255) := by
  intro hall
  have h := hall 274 569
  rw [nebula_glow_pixel cosTable sinTable glyph0 randint0 (seedF0 42)
    (by with_unfolding_all rfl) (by with_unfolding_all rfl)] at h
  exact absurd h (by decide)

/-! ## Color interpolation -/

/-- Claim C2 counterexample: at c1 = (0), c2 = (10), t = 0.17 the code
returns int(1.7) = 1 while the nearest integer to 1.7 is 2, so lerp_color
does not round to nearest. -/
theorem lerp_color_not_round_nearest :
    lerp_color [0] [10] (17/100) ≠ lerp_color_spec [0] [10] (17/100) := by
  have h1 : lerp_color [0] [10] (17/100) = [1] := by with_unfolding_all rfl
  have h2 : lerp_color_spec [0] [10] (17/100) = [2] := by with_unfolding_all rfl
  rw [h1, h2]
  decide

/-- Claim C2 (amended): for nonnegative equal-length channel tuples and
t in [0, 1], lerp_color returns the channelwise value c1 + (c2 - c1) t
truncated (floored, the value being nonnegative), not rounded to nearest;
at t = 0 it returns c1 exactly, at t = 1 it returns c2 exactly, and at
t = 0.5 it returns the channelwise average rounded down. -/
theorem lerp_color_floor (c1 c2 : List ℤ) (t : ℚ)
    (hlen : c1.length = c2.length)
    (hc1 : ∀ a ∈ c1, 0 ≤ a) (hc2 : ∀ b ∈ c2, 0 ≤ b)
    (ht0 : 0 ≤ t) (ht1 : t ≤ 1) :
    lerp_color c1 c2 t
      = (c1.zip c2).map (fun p => Int.floor ((p.1 : ℚ) + ((p.2 : ℚ) - (p.1 : ℚ)) * t)) ∧
    lerp_color c1 c2 0 = c1 ∧
    lerp_color c1 c2 1 = c2 ∧
    lerp_color c1 c2 (1/2)
      = (c1.zip c2).map (fun p => Int.floor (((p.1 : ℚ) + (p.2 : ℚ)) / 2)) := by
  have hmem : ∀ p ∈ c1.zip c2, (0 : ℚ) ≤ (p.1 : ℚ) ∧ (0 : ℚ) ≤ (p.2 : ℚ) := by
    intro p hp
    obtain ⟨h1, h2⟩ := List.of_mem_zip (a := p.1) (b := p.2) hp
    exact ⟨Int.cast_nonneg.mpr (hc1 p.1 h1), Int.cast_nonneg.mpr (hc2 p.2 h2)⟩
  refine ⟨?_, ?_, ?_, ?_⟩
  · refine List.map_congr_left ?_
    intro p hp
    obtain ⟨h1, h2⟩ := hmem p hp
    have hnn : (0 : ℚ) ≤ (p.1 : ℚ) + ((p.2 : ℚ) - (p.1 : ℚ)) * t := by nlinarith
    simp only [pyInt, if_pos hnn]
  · have : lerp_color c1 c2 0 = (c1.zip c2).map Prod.fst := by
      refine List.map_congr_left ?_
      intro p _
      simp [pyInt]
    rw [this, List.map_fst_zip c1 c2 (le_of_eq hlen)]
  · have : lerp_color c1 c2 1 = (c1.zip c2).map Prod.snd := by
      refine List.map_congr_left ?_
      intro p _
      have : (p.1 : ℚ) + ((p.2 : ℚ) - (p.1 : ℚ)) * 1 = (p.2 : ℚ) := by ring
      simp [pyInt, this]
    rw [this, List.map_snd_zip c1 c2 (ge_of_eq hlen)]
  · refine List.map_congr_left ?_
    intro p hp
    obtain ⟨h1, h2⟩ := hmem p hp
    have he : (p.1 : ℚ) + ((p.2 : ℚ) - (p.1 : ℚ)) * (1/2)
        = ((p.1 : ℚ) + (p.2 : ℚ)) / 2 := by ring
    have hnn : (0 : ℚ) ≤ ((p.1 : ℚ) + (p.2 : ℚ)) / 2 := by nlinarith
    simp only [pyInt, he, if_pos hnn]

/-- Witness for the amended claim C2 at concrete channels and fraction. -/
theorem lerp_color_floor_witness :
    lerp_color [0, 255] [255, 0] (1/3)
      = (([0, 255] : List ℤ).zip [255, 0]).map
          (fun p => Int.floor ((p.1 : ℚ) + ((p.2 : ℚ) - (p.1 : ℚ)) * (1/3))) :=
  (lerp_color_floor [0, 255] [255, 0] (1/3) rfl (by decide) (by decide)
    (by norm_num) (by norm_num)).1

/-! ## Arc subdivision and gradient colors -/

/-- Componentwise description of zip elements. -/
theorem getElem_zip_pair {α β : Type} : ∀ (l1 : List α) (l2 : List β) (i : ℕ)
    (h1 : i < l1.length) (h2 : i < l2.length) (h : i < (l1.zip l2).length),
    (l1.zip l2)[i] = (l1[i], l2[i]) := by
  intro l1
  induction l1 with
  | nil => intro l2 i h1 h2 h; simp at h1
  | cons a l1 ih =>
    intro l2 i h1 h2 h
    cases l2 with
    | nil => simp at h2
    | cons b l2 =>
      cases i with
      | zero => rfl
      | succ i =>
        simp only [List.zip_cons_cons, List.getElem_cons_succ]
        exact ih l2 i (by simpa using h1) (by simpa using h2)
          (by simpa [List.length_zip] using h)

/-- Claim C7: draw_thick_arc samples 201 points at fractions i/200 of the
angular span and draws 200 segments, segment i filled with the color
lerp_color(color_start, color_end, t_mid) at the midpoint fraction
t_mid = (i/200 + (i+1)/200)/2 of its two endpoints. -/
theorem arc_subdivision_and_colors (cosF sinF : ℚ → ℚ)
    (cx cy rx ry aS aE rot w : ℚ) (cs ce : List ℤ) :
    (arcPoints cosF sinF cx cy rx ry aS aE rot 200).length = 201 ∧
    (arcPoints cosF sinF cx cy rx ry aS aE rot 200).map (fun p => p.2.2)
      = (List.range 201).map (fun i : ℕ => (i : ℚ) / 200) ∧
    (draw_thick_arc cosF sinF cx cy rx ry aS aE rot w cs ce 200).length = 200 ∧
    (draw_thick_arc cosF sinF cx cy rx ry aS aE rot w cs ce 200).map Op.color
      = (List.range 200).map
          (fun i : ℕ => rgbFill (lerp_color cs ce
            (((i : ℚ) / 200 + ((i : ℚ) + 1) / 200) / 2))) := by
  have hlenp : (arcPoints cosF sinF cx cy rx ry aS aE rot 200).length = 201 := by
    simp [arcPoints]
  have hlent : (arcPoints cosF sinF cx cy rx ry aS aE rot 200).tail.length = 200 := by
    rw [List.length_tail, hlenp]
  have hlenz : ((arcPoints cosF sinF cx cy rx ry aS aE rot 200).zip
      (arcPoints cosF sinF cx cy rx ry aS aE rot 200).tail).length = 200 := by
    rw [List.length_zip, hlenp, hlent]
    omega
  have hlend : (draw_thick_arc cosF sinF cx cy rx ry aS aE rot w cs ce 200).length
      = 200 := by
    simp only [draw_thick_arc, List.length_map]
    exact hlenz
  have hpt : ∀ i : ℕ, ∀ h : i < (arcPoints cosF sinF cx cy rx ry aS aE rot 200).length,
      ((arcPoints cosF sinF cx cy rx ry aS aE rot 200)[i]).2.2 = (i : ℚ) / ((200 : ℕ) : ℚ) := by
    intro i h
    simp [arcPoints]
  refine ⟨hlenp, ?_, hlend, ?_⟩
  · apply List.ext_getElem
    · simp [hlenp]
    · intro i h1 h2
      rw [List.getElem_map, List.getElem_map, List.getElem_range]
      rw [hpt i (by rw [List.length_map] at h1; exact h1)]
      norm_num
  · apply List.ext_getElem
    · simp [hlend]
    · intro i h1 h2
      have hi : i < 200 := by rw [List.length_map, hlend] at h1; exact h1
      rw [List.getElem_map, List.getElem_map, List.getElem_range]
      simp only [draw_thick_arc, List.getElem_map]
      rw [getElem_zip_pair _ _ i (by rw [hlenp]; omega) (by rw [hlent]; omega)
        (by rw [hlenz]; omega)]
      simp only [List.getElem_tail]
      rw [hpt i (by rw [hlenp]; omega), hpt (i+1) (by rw [hlenp]; omega)]
      have harg : ((i : ℚ) / ((200 : ℕ) : ℚ) + ((i + 1 : ℕ) : ℚ) / ((200 : ℕ) : ℚ)) / 2
          = (((i : ℚ) / 200 + ((i : ℚ) + 1) / 200) / 2) := by
        push_cast
        ring
      rw [harg]

/-! ## Container layout lemmas -/

/-- Each serialized directory entry is 16 bytes. -/
theorem icoEntryBytes_length (img : PILImage) (off : ℕ) :
    (icoEntryBytes img off).length = 16 := by
  simp [icoEntryBytes, u32le]

/-- The serialized directory is 16 bytes per image. -/
theorem icoDirBytes_length : ∀ (images : List PILImage) (off : ℕ),
    (icoDirBytes images off).length = 16 * images.length
  | [], _ => rfl
  | img :: rest, off => by
    simp [icoDirBytes, icoEntryBytes_length, icoDirBytes_length rest]
    ring

/-- When both packed 32-bit fields are in range, icoEntry succeeds and
produces exactly the total entry bytes. -/
theorem icoEntry_eq (img : PILImage) (off : ℕ)
    (hs : img.png.length < 4294967296) (ho : off < 4294967296) :
    icoEntry img img.png.length off = some (icoEntryBytes img off) := by
  have hw : (if img.width < 256 then img.width else 0) < 256 := by split <;> omega
  have hh : (if img.height < 256 then img.height else 0) < 256 := by split <;> omega
  simp [icoEntry, packU8, packU16, packU32, hw, hh, hs, ho, icoEntryBytes, u32le]

/-- Total payload size of a cons. -/
theorem icoTotal_cons (img : PILImage) (rest : List PILImage) :
    icoTotal (img :: rest) = img.png.length + icoTotal rest := by
  simp [icoTotal, pngSizes]

/-- When every offset stays below 2^32 the directory loop succeeds and
produces exactly the total directory bytes. -/
theorem icoDirectory_eq : ∀ (images : List PILImage) (off : ℕ),
    off + icoTotal images < 4294967296 →
    icoDirectory images off = some (icoDirBytes images off)
  | [], _, _ => rfl
  | img :: rest, off, h => by
    have hc := icoTotal_cons img rest
    have hs : img.png.length < 4294967296 := by omega
    have ho : off < 4294967296 := by omega
    have hrec := icoDirectory_eq rest (off + img.png.length) (by omega)
    simp [icoDirectory, icoEntry_eq img off hs ho, hrec, icoDirBytes]

/-- Under the struct.pack range conditions create_ico succeeds and returns
exactly the icoBytes layout. -/
theorem create_ico_eq (images : List PILImage)
    (hN : images.length < 65536)
    (hB : 6 + 16 * images.length + icoTotal images < 4294967296) :
    create_ico images = some (icoBytes images) := by
  have hdir := icoDirectory_eq images (6 + images.length * 16) (by omega)
  simp [create_ico, packU16, hN, hdir, icoBytes]

/-- pngSizes has one length per image. -/
theorem pngSizes_length (images : List PILImage) :
    (pngSizes images).length = images.length := by
  simp [pngSizes]

/-- The first payload sits directly after header and directory. -/
theorem icoOffset_zero (images : List PILImage) :
    icoOffset images 0 = 6 + 16 * images.length := by
  simp [icoOffset]

/-- Each offset advances by exactly the payload length before it. -/
theorem icoOffset_succ (images : List PILImage) (i : ℕ) (hi : i < images.length) :
    icoOffset images i + (pngSizes images).getD i 0 = icoOffset images (i + 1) := by
  have hi2 : i < (pngSizes images).length := by rw [pngSizes_length]; exact hi
  simp only [icoOffset]
  rw [List.getD_eq_getElem _ _ hi2, List.sum_take_succ _ i hi2]
  ring

/-- With nonempty payloads each offset strictly precedes the next. -/
theorem icoOffset_lt_succ (images : List PILImage) (i : ℕ) (hi : i < images.length)
    (hne : ∀ img ∈ images, img.png ≠ []) :
    icoOffset images i < icoOffset images (i + 1) := by
  have hi2 : i < (pngSizes images).length := by rw [pngSizes_length]; exact hi
  have hpos : 0 < (pngSizes images).getD i 0 := by
    rw [List.getD_eq_getElem _ _ hi2]
    have hmap : (pngSizes images)[i] = (images.get ⟨i, hi⟩).png.length := by
      simp [pngSizes]
    rw [hmap]
    have hm := hne (images.get ⟨i, hi⟩) (images.get_mem i hi)
    cases hp : (images.get ⟨i, hi⟩).png with
    | nil => exact absurd hp hm
    | cons a l => simp [hp]
  have := icoOffset_succ images i hi
  omega

/-- With nonempty payloads the offsets are strictly increasing. -/
theorem icoOffset_strictMono (images : List PILImage)
    (hne : ∀ img ∈ images, img.png ≠ []) :
    ∀ i j : ℕ, i < j → j < images.length →
      icoOffset images i < icoOffset images j := by
  intro i j
  induction j with
  | zero => omega
  | succ j ih =>
    intro hij hj
    rcases Nat.lt_succ_iff_lt_or_eq.mp hij with h | h
    · exact lt_trans (ih h (by omega)) (icoOffset_lt_succ images j (by omega) hne)
    · subst h
      exact icoOffset_lt_succ images i (by omega) hne

/-- The 16-byte slice at position 16 i of the directory bytes is image i's
entry, with the offset accumulated over the earlier payloads. -/
theorem icoDirBytes_slice : ∀ (images : List PILImage) (off i : ℕ),
    i < images.length →
    ((icoDirBytes images off).drop (16 * i)).take 16
      = icoEntryBytes (images.getD i ⟨0, 0, []⟩)
          (off + ((pngSizes images).take i).sum)
  | [], _, i, hi => by simp at hi
  | img :: rest, off, 0, _ => by
    simp only [icoDirBytes, Nat.mul_zero, List.drop_zero, List.getD_cons_zero]
    rw [List.take_left' (icoEntryBytes_length img off)]
    simp [pngSizes]
  | img :: rest, off, i + 1, hi => by
    have h16 : (icoEntryBytes img off).length = 16 := icoEntryBytes_length img off
    have hstep : ((icoDirBytes (img :: rest) off).drop (16 * (i + 1)))
        = (icoDirBytes rest (off + img.png.length)).drop (16 * i) := by
      simp only [icoDirBytes]
      rw [show 16 * (i + 1) = (icoEntryBytes img off).length + 16 * i by rw [h16]; ring]
      exact List.drop_append (16 * i)
    rw [hstep, icoDirBytes_slice rest (off + img.png.length) i (by simpa using hi)]
    simp only [List.getD_cons_succ]
    congr 1
    simp [pngSizes]
    ring

/-- The 16-byte slice of the container at byte 6 + 16 i is image i's
directory entry, carrying icoOffset images i. -/
theorem icoBytes_entry (images : List PILImage) (i : ℕ) (hi : i < images.length) :
    ((icoBytes images).drop (6 + 16 * i)).take 16
      = icoEntryBytes (images.getD i ⟨0, 0, []⟩) (icoOffset images i) := by
  have hd : (icoBytes images).drop (6 + 16 * i)
      = (icoDirBytes images (6 + images.length * 16)).drop (16 * i)
        ++ (images.map fun img => img.png).flatten := by
    simp only [icoBytes]
    rw [List.append_assoc]
    rw [show 6 + 16 * i
        = ([0, 0, 1, 0, images.length % 256, images.length / 256] : List ℕ).length
          + 16 * i from by simp]
    rw [List.drop_append]
    exact List.drop_append_of_le_length
      (by rw [icoDirBytes_length]; omega)
  rw [hd, List.take_append_of_le_length
    (by rw [List.length_drop, icoDirBytes_length]; omega)]
  rw [icoDirBytes_slice images _ i hi]
  congr 1
  simp only [icoOffset]
  ring

/-- Slicing the flattened payload block at an accumulated length boundary
recovers the payload. -/
theorem flatten_slice : ∀ (ps : List (List ℕ)) (i : ℕ), i < ps.length →
    ((ps.flatten).drop (((ps.map List.length).take i).sum)).take
        ((ps.map List.length).getD i 0) = ps.getD i []
  | [], i, hi => by simp at hi
  | p :: ps, 0, _ => by
    simp only [List.map_cons, List.take_zero, List.sum_nil, List.drop_zero,
      List.getD_cons_zero, List.flatten_cons]
    exact List.take_left' rfl
  | p :: ps, i + 1, hi => by
    simp only [List.map_cons, List.take_succ_cons, List.sum_cons, List.flatten_cons,
      List.getD_cons_succ]
    rw [List.drop_append]
    exact flatten_slice ps i (by simpa using hi)

/-- pngSizes are the lengths of the payload block entries. -/
theorem pngSizes_eq_map_length (images : List PILImage) :
    pngSizes images = (images.map fun img => img.png).map List.length := by
  simp [pngSizes, List.map_map, Function.comp]

/-- The bytes at entry i's stored offset are exactly payload i. -/
theorem icoBytes_payload (images : List PILImage) (i : ℕ) (hi : i < images.length) :
    ((icoBytes images).drop (icoOffset images i)).take ((pngSizes images).getD i 0)
      = (images.getD i ⟨0, 0, []⟩).png := by
  have hd : (icoBytes images).drop (icoOffset images i)
      = ((images.map fun img => img.png).flatten).drop
          (((pngSizes images).take i).sum) := by
    simp only [icoBytes, icoOffset]
    rw [List.append_assoc]
    rw [show 6 + 16 * images.length + ((pngSizes images).take i).sum
        = ([0, 0, 1, 0, images.length % 256, images.length / 256] : List ℕ).length
          + (images.length * 16 + ((pngSizes images).take i).sum) from by simp; ring]
    rw [List.drop_append]
    rw [show images.length * 16 + ((pngSizes images).take i).sum
        = (icoDirBytes images (6 + images.length * 16)).length
          + ((pngSizes images).take i).sum from by rw [icoDirBytes_length]; ring]
    rw [List.drop_append]
  rw [hd, pngSizes_eq_map_length]
  rw [flatten_slice (images.map fun img => img.png) i (by simpa using hi)]
  have hi2 : i < (images.map fun img => img.png).length := by simpa using hi
  rw [List.getD_eq_getElem _ _ hi2, List.getD_eq_getElem _ _ hi, List.getElem_map]

/-- Total container length: header, directory, payload block. -/
theorem icoBytes_length (images : List PILImage) :
    (icoBytes images).length = 6 + 16 * images.length + icoTotal images := by
  simp only [icoBytes, List.length_append, icoDirBytes_length, List.length_flatten]
  rw [← pngSizes_eq_map_length]
  simp [icoTotal]

/-- The first six container bytes are the header fields. -/
theorem icoBytes_header (images : List PILImage) :
    (icoBytes images).take 6
      = [0, 0, 1, 0, images.length % 256, images.length / 256] := rfl

/-- Claim C3: for every image list (count packable as u16, all struct.pack
fields in range, payloads nonempty as PNG streams always are), the byte
stream create_ico produces is exactly header then N 16-byte entries then the
N payloads in order; the first offset is 6 + 16 N, offsets strictly
increase, each entry slice carries its running offset, the bytes at each
offset are that image's payload, and offset + payload length equals the next
offset (the total file length for the last entry), so no payloads overlap. -/
theorem create_ico_layout (images : List PILImage)
    (hN : images.length < 65536)
    (hB : 6 + 16 * images.length + icoTotal images < 4294967296)
    (hne : ∀ img ∈ images, img.png ≠ []) :
    create_ico images = some (icoBytes images) ∧
    (icoBytes images).take 6
      = [0, 0, 1, 0, images.length % 256, images.length / 256] ∧
    (icoBytes images).length = 6 + 16 * images.length + icoTotal images ∧
    (icoBytes images).drop (6 + 16 * images.length)
      = (images.map fun img => img.png).flatten ∧
    icoOffset images 0 = 6 + 16 * images.length ∧
    (∀ i j : ℕ, i < j → j < images.length →
      icoOffset images i < icoOffset images j) ∧
    (∀ i : ℕ, i + 1 < images.length →
      icoOffset images i + (pngSizes images).getD i 0 = icoOffset images (i + 1)) ∧
    (∀ i : ℕ, i < images.length →
      ((icoBytes images).drop (6 + 16 * i)).take 16
        = icoEntryBytes (images.getD i ⟨0, 0, []⟩) (icoOffset images i)) ∧
    (∀ i : ℕ, i < images.length →
      ((icoBytes images).drop (icoOffset images i)).take
          ((pngSizes images).getD i 0)
        = (images.getD i ⟨0, 0, []⟩).png) ∧
    (images.length ≠ 0 →
      icoOffset images (images.length - 1)
          + (pngSizes images).getD (images.length - 1) 0
        = (icoBytes images).length) := by
  refine ⟨create_ico_eq images hN hB, icoBytes_header images, icoBytes_length images,
    ?_, icoOffset_zero images, icoOffset_strictMono images hne,
    fun i hi => icoOffset_succ images i (by omega),
    fun i hi => icoBytes_entry images i hi,
    fun i hi => icoBytes_payload images i hi, ?_⟩
  · simp only [icoBytes]
    exact List.drop_left' (by
      rw [List.length_append, icoDirBytes_length]
      simp)
  · intro h0
    rw [icoOffset_succ images (images.length - 1) (by omega)]
    rw [show images.length - 1 + 1 = images.length by omega]
    rw [icoBytes_length images]
    simp only [icoOffset]
    rw [show (pngSizes images).take images.length = pngSizes images from by
      rw [← pngSizes_length images]; exact List.take_length _]
    rfl

/-- Witness for claim C3 on a concrete two-image list. -/
theorem create_ico_layout_witness :
    create_ico icoImagesW = some (icoBytes icoImagesW) ∧
    (icoBytes icoImagesW).take 6
      = [0, 0, 1, 0, icoImagesW.length % 256, icoImagesW.length / 256] :=
  ⟨(create_ico_layout icoImagesW (by decide) (by decide) (by decide)).1,
   (create_ico_layout icoImagesW (by decide) (by decide) (by decide)).2.1⟩

/-- Claim C4: in the container produced by create_ico, an embedded image of
exactly 256x256 has directory width and height bytes both 0, and an
embedded 128x128 image has them both 128. -/
theorem create_ico_size_bytes (images : List PILImage) (i : ℕ)
    (hN : images.length < 65536)
    (hB : 6 + 16 * images.length + icoTotal images < 4294967296)
    (hi : i < images.length) :
    create_ico images = some (icoBytes images) ∧
    ((images.getD i ⟨0, 0, []⟩).width = 256 →
     (images.getD i ⟨0, 0, []⟩).height = 256 →
      (((icoBytes images).drop (6 + 16 * i)).take 16).take 2 = [0, 0]) ∧
    ((images.getD i ⟨0, 0, []⟩).width = 128 →
     (images.getD i ⟨0, 0, []⟩).height = 128 →
      (((icoBytes images).drop (6 + 16 * i)).take 16).take 2 = [128, 128]) := by
  refine ⟨create_ico_eq images hN hB, ?_, ?_⟩ <;> intro hw hh <;>
    rw [icoBytes_entry images i hi] <;> simp only [icoEntryBytes, hw, hh] <;>
    norm_num

/-- Witness for claim C4: a 256x256 image at index 0 and a 128x128 image at
index 1 of a concrete list. -/
theorem create_ico_size_bytes_witness :
    (((icoBytes icoImagesWH).drop (6 + 16 * 0)).take 16).take 2 = [0, 0] ∧
    (((icoBytes icoImagesWH).drop (6 + 16 * 1)).take 16).take 2 = [128, 128] :=
  ⟨(create_ico_size_bytes icoImagesWH 0 (by decide) (by decide) (by decide)).2.1
      rfl rfl,
   (create_ico_size_bytes icoImagesWH 1 (by decide) (by decide) (by decide)).2.2
      rfl rfl⟩

/-- Claim C9: create_ico writes a width (height) byte of 0 for every image
whose width (height) is at least 256, with no validation and no error: the
serialization still succeeds, so an oversized image is silently embedded
with directory bytes declaring 256x256. -/
theorem create_ico_truncates_large (images : List PILImage) (i : ℕ)
    (hN : images.length < 65536)
    (hB : 6 + 16 * images.length + icoTotal images < 4294967296)
    (hi : i < images.length) :
    create_ico images = some (icoBytes images) ∧
    (256 ≤ (images.getD i ⟨0, 0, []⟩).width →
      (((icoBytes images).drop (6 + 16 * i)).take 16).take 1 = [0]) ∧
    (256 ≤ (images.getD i ⟨0, 0, []⟩).height →
      ((((icoBytes images).drop (6 + 16 * i)).take 16).drop 1).take 1 = [0]) := by
  refine ⟨create_ico_eq images hN hB, ?_, ?_⟩ <;> intro hw <;>
    rw [icoBytes_entry images i hi] <;> simp only [icoEntryBytes] <;>
    rw [if_neg (Nat.not_lt.mpr hw)] <;> simp

/-- Witness for claim C9: a single 512x512 image is serialized without
error and its entry declares width byte 0. -/
theorem create_ico_truncates_large_witness :
    create_ico icoImagesBig = some (icoBytes icoImagesBig) ∧
    (((icoBytes icoImagesBig).drop (6 + 16 * 0)).take 16).take 1 = [0] :=
  ⟨(create_ico_truncates_large icoImagesBig 0 (by decide) (by decide) (by decide)).1,
   (create_ico_truncates_large icoImagesBig 0 (by decide) (by decide) (by decide)).2.1
      (by decide)⟩
